import Mathlib

/-!
# Verification of the state-impact discovery subsystem

Shallow embedding, in Lean 4, of the state-impact discovery subsystem of
the obbb repository: the heuristic pre-filter and resumable batch
classifier (`scripts/classify_state_impacts.ts`) and the per-state
provisions route with its multi-query retriever, hybrid scorer and
friendly summarizer (the state-provisions API route).

Texts are modelled as lists of characters.  JavaScript regular
expressions used by the source are embedded as executable character-list
matchers; each matcher carries a comment naming the exact source pattern
it implements.  Numeric scores are modelled as rationals, so the
floating-point arithmetic of the source is exact here.  External calls
(embedding provider, vector index, language model) are modelled as
explicit inputs or outcome oracles.
-/

namespace Obbb

set_option maxRecDepth 400000

abbrev Chars := List Char

/-- Substring test, the embedding of the JavaScript operations
`String.prototype.includes(pat)` and `/pat/.test(s)` for a pattern
that is a plain literal with no metacharacters. -/
def containsSub (pat : Chars) : Chars → Bool
  | [] => pat.isEmpty
  | c :: rest => pat.isPrefixOf (c :: rest) || containsSub pat rest

/-- Substring test against any of a list of literal alternatives; embeds
regexes of the shape `/a (b|c)/` after expanding the alternation. -/
def containsAny (pats : List String) (t : Chars) : Bool :=
  pats.any fun p => containsSub p.toList t

/-- JavaScript word character, the `\w` class: `[A-Za-z0-9_]`. -/
def isWordChar (c : Char) : Bool :=
  (('a' ≤ c && c ≤ 'z') || ('A' ≤ c && c ≤ 'Z') || c.isDigit || c == '_')

/-- JavaScript whitespace, the `\s` class (ASCII whitespace plus the
Unicode space code points recognised by JavaScript). -/
def isJsSpace (c : Char) : Bool :=
  c == ' ' || c == '\t' || c == '\n' || c == '\r' ||
  c.val == 0x0b || c.val == 0x0c || c.val == 0xa0 || c.val == 0x1680 ||
  (0x2000 ≤ c.val && c.val ≤ 0x200a) || c.val == 0x2028 || c.val == 0x2029 ||
  c.val == 0x202f || c.val == 0x205f || c.val == 0x3000 || c.val == 0xfeff

/-- JavaScript line terminators, the characters not matched by `.`
when the regex has no `s` flag. -/
def isLineTerm (c : Char) : Bool :=
  c == '\n' || c == '\r' || c.val == 0x2028 || c.val == 0x2029

/-- Auxiliary scan for `/\b(w1|...|wk)\b/`: walks the text remembering
the previous character; a word from `ws` matches at the current position
when the previous character is absent or not a word character and the
character after the occurrence is absent or not a word character.  All
words used consist of word characters, so this is exactly the JavaScript
`\b` semantics for these patterns. -/
def containsWordAux (ws : List Chars) (prev : Option Char) (s : Chars) : Bool :=
  (ws.any fun w =>
    (match prev with
     | none => true
     | some c => !isWordChar c) &&
    w.isPrefixOf s &&
    (match (s.drop w.length).head? with
     | none => true
     | some c => !isWordChar c)) ||
  (match s with
   | [] => false
   | c :: rest => containsWordAux ws (some c) rest)

/-- Test for `/\b(w1|...|wk)\b/` where every alternative consists of
word characters. -/
def containsWordAny (ws : List String) (t : Chars) : Bool :=
  containsWordAux (ws.map String.toList) none t

/-- After the mandatory `$` and first digit of
`/\$\d+.*?(million|billion|thousand)/` have been consumed, scan for one
of the three unit words; the lazy gap `.*?` admits any characters except
line terminators. -/
def gapThenUnit : Chars → Bool
  | [] => false
  | c :: rest =>
    ("million".toList.isPrefixOf (c :: rest)) ||
    ("billion".toList.isPrefixOf (c :: rest)) ||
    ("thousand".toList.isPrefixOf (c :: rest)) ||
    (!isLineTerm c && gapThenUnit rest)

/-- Test for the source regex `/\$\d+.*?(million|billion|thousand)/`:
a dollar sign, at least one ASCII digit, then one of the unit words
later with no line terminator in between (`.` does not match line
terminators).  Extra digits of `\d+` are absorbed by the gap, which is
sound because digits are not line terminators. -/
def dollarAmount : Chars → Bool
  | [] => false
  | c :: rest =>
    (c == '$' &&
      (match rest with
       | d :: rest2 => d.isDigit && gapThenUnit rest2
       | [] => false)) ||
    dollarAmount rest

/-- Test for the source regex `/definitions?\.?\s*$/` (no `m` flag, so
`$` anchors at the end of the whole string): working from the end, strip
trailing whitespace, then an optional dot, then an optional `s`, and
require the remaining text to end with `definition`. -/
def definitionsEnd (s : Chars) : Bool :=
  let r1 := s.reverse.dropWhile isJsSpace
  let r2 := match r1 with
            | '.' :: r => r
            | _ => r1
  let r3 := match r2 with
            | 's' :: r => r
            | _ => r2
  ("definition".toList.reverse).isPrefixOf r3

/-- Match of `/sec\.\s*\d+\.\s*definitions/` anchored at the head of
`s`: the literal `sec.`, optional whitespace, at least one digit, a dot,
optional whitespace, then the literal `definitions`.  The greedy `\s*`
and `\d+` are deterministic because whitespace, digits and the following
literal characters are pairwise disjoint. -/
def secDefinitionsAt (s : Chars) : Bool :=
  "sec.".toList.isPrefixOf s &&
  (let r1 := (s.drop 4).dropWhile isJsSpace
   let digs := r1.takeWhile Char.isDigit
   let r2 := r1.dropWhile Char.isDigit
   !digs.isEmpty &&
   (match r2 with
    | '.' :: r3 => "definitions".toList.isPrefixOf (r3.dropWhile isJsSpace)
    | _ => false))

/-- Test for `/sec\.\s*\d+\.\s*definitions/` anywhere in the text. -/
def secDefinitions : Chars → Bool
  | [] => false
  | c :: rest => secDefinitionsAt (c :: rest) || secDefinitions rest

/-- Quote character admitted by the class `['"]`. -/
def isQuote (c : Char) : Bool := c == '\'' || c == '"'

/-- Character admitted by the class `[\w\s]`. -/
def isWordOrSpace (c : Char) : Bool := isWordChar c || isJsSpace c

/-- Match of `/the term ['"][\w\s]+['"] means/` anchored at the head of
`s`.  Quotes are not in `[\w\s]`, so the greedy run is deterministic:
the closing quote can only be the first character after the maximal
`[\w\s]` run. -/
def termMeansAt (s : Chars) : Bool :=
  "the term ".toList.isPrefixOf s &&
  (match s.drop 9 with
   | q :: r =>
     isQuote q &&
     (let run := r.takeWhile isWordOrSpace
      let r2 := r.dropWhile isWordOrSpace
      !run.isEmpty &&
      (match r2 with
       | q2 :: r3 => isQuote q2 && " means".toList.isPrefixOf r3
       | [] => false))
   | [] => false)

/-- Test for `/the term ['"][\w\s]+['"] means/` anywhere in the text. -/
def termMeans : Chars → Bool
  | [] => false
  | c :: rest => termMeansAt (c :: rest) || termMeans rest

/-- The `proceduralPatterns` block of `shouldProcessChunk`
(classify_state_impacts.ts, lines 152-163): true when any of the ten
procedural-language patterns matches. -/
def proceduralHit (t : Chars) : Bool :=
  containsSub "this act may be cited as".toList t ||
  containsSub "table of contents".toList t ||
  containsSub "effective date".toList t ||
  definitionsEnd t ||
  secDefinitions t ||
  containsAny ["in this act", "in this section", "in this subsection"] t ||
  containsSub "for purposes of this".toList t ||
  termMeans t ||
  containsSub "congressional findings".toList t ||
  containsAny ["sense of congress", "sense of the senate"] t

/-- The `internationalPatterns` block of `shouldProcessChunk`
(lines 170-177). -/
def internationalHit (t : Chars) : Bool :=
  containsAny ["foreign government", "foreign nation", "foreign country",
    "foreign state"] t ||
  containsAny ["international law", "international treaty",
    "international agreement", "international organization"] t ||
  containsSub "united nations".toList t ||
  containsSub "diplomatic".toList t ||
  containsSub "embassy".toList t ||
  containsSub "consul".toList t

/-- The `domesticImpactPatterns` block of `shouldProcessChunk`
(lines 179-185); plain substring alternations without `\b`. -/
def domesticHit (t : Chars) : Bool :=
  containsAny ["job", "employment", "economic", "trade", "manufacturing",
    "production"] t ||
  containsAny ["tax", "revenue", "funding", "grant", "appropriation"] t ||
  containsAny ["infrastructure", "transportation", "energy"] t ||
  containsAny ["healthcare", "education", "social"] t ||
  containsAny ["environmental", "regulation", "compliance"] t

/-- The `stateImpactPatterns` block of `shouldProcessChunk`
(lines 193-208); word-boundary alternations plus the dollar-amount
regex. -/
def stateImpactHit (t : Chars) : Bool :=
  containsWordAny ["state", "states"] t ||
  containsWordAny ["funding", "grant", "appropriation", "allocation"] t ||
  containsWordAny ["program", "initiative", "project"] t ||
  containsWordAny ["infrastructure", "transportation", "highway", "bridge",
    "airport"] t ||
  containsWordAny ["healthcare", "medicaid", "medicare", "hospital"] t ||
  containsWordAny ["education", "school", "university", "college"] t ||
  containsWordAny ["environmental", "clean", "energy", "renewable"] t ||
  containsWordAny ["economic", "job", "employment", "manufacturing",
    "industry"] t ||
  containsWordAny ["tax", "revenue", "credit", "deduction", "exemption"] t ||
  containsWordAny ["rural", "urban", "metropolitan", "county", "city",
    "municipal"] t ||
  containsWordAny ["agriculture", "farming", "forestry", "mining"] t ||
  containsWordAny ["border", "immigration", "customs"] t ||
  dollarAmount t ||
  containsWordAny ["formula", "distribution", "allocation"] t

/-- JavaScript falsiness-aware defaulting on strings-as-Chars: the
embedding of `a || b` where `a` may be `undefined` or the empty string
(both falsy). -/
def jsOrC : Option Chars → Chars → Chars
  | some s, d => if s.isEmpty then d else s
  | none, d => d

/-- Chunk metadata as read by the classifier and the route: the fields
actually consulted (`text`, `content`, `section`). -/
structure ChunkMeta where
  text : Option Chars
  content : Option Chars
  sectionLabel : Option Chars
deriving DecidableEq, Repr

/-- A chunk as exported from the vector index. -/
structure PineconeChunk where
  id : String
  metadata : Option ChunkMeta
deriving DecidableEq, Repr

/-- `(chunk.metadata?.text || chunk.metadata?.content || '').toLowerCase()`
(classify_state_impacts.ts, line 144).  `Char.toLower` agrees with the
JavaScript `toLowerCase` on the ASCII texts this pipeline handles. -/
def textOf (c : PineconeChunk) : Chars :=
  (jsOrC (c.metadata.bind ChunkMeta.text)
      (jsOrC (c.metadata.bind ChunkMeta.content) [])).map Char.toLower

/-- The pre-filter `shouldProcessChunk`
(classify_state_impacts.ts, lines 143-211). -/
def shouldProcessChunk (c : PineconeChunk) : Bool :=
  let text := textOf c
  if text.length < 100 then false
  else if proceduralHit text then false
  else if internationalHit text && !domesticHit text then false
  else stateImpactHit text

/-! ## Hybrid scorer (state-provisions route, lines 268-335) -/

/-- The `stateTerms` array of the route (lines 284-290). -/
def stateTerms : List String := [
  "state", "states", "funding", "program", "grant", "allocation",
  "infrastructure", "transportation", "highway", "bridge", "airport",
  "healthcare", "medicaid", "medicare", "education", "school", "university",
  "economic", "development", "manufacturing", "agriculture", "energy",
  "environmental", "clean", "renewable", "rural", "urban", "metropolitan"]

/-- `if (textLower.includes(stateNameLower)) keywordScore += 1.0`
(route, line 280), starting from `keywordScore = 0`. -/
def kwAfterName (textLower stateNameLower : Chars) : ℚ :=
  if containsSub stateNameLower textLower then 0 + 1 else 0

/-- `if (textLower.includes(stateCodeLower)) keywordScore += 0.8`
(route, line 281). -/
def kwAfterCode (textLower stateCodeLower : Chars) (k : ℚ) : ℚ :=
  if containsSub stateCodeLower textLower then k + 8/10 else k

/-- The `stateTerms` loop (route, lines 292-294): `+= 0.1` per term
included in the text. -/
def kwAfterTerms (textLower : Chars) (k : ℚ) : ℚ :=
  stateTerms.foldl
    (fun acc term => if containsSub term.toList textLower then acc + 1/10 else acc) k

/-- `if (/\$\d+.*?(million|billion|thousand)/.test(textLower))
keywordScore += 0.5` (route, line 297). -/
def kwAfterDollar (textLower : Chars) (k : ℚ) : ℚ :=
  if dollarAmount textLower then k + 1/2 else k

/-- The keyword-score block of the route (lines 274-300): weight 1.0 for
a literal state-name mention, 0.8 for a state-code mention, 0.1 per
`stateTerms` hit, 0.5 for a dollar-amount match, then
`Math.min(keywordScore, 1.0)`.  The route lowercases the text, state
name and state code before matching; that lowering is performed here
inside the function. -/
def keywordScore (text stateName stateCode : Chars) : ℚ :=
  let textLower := text.map Char.toLower
  min (kwAfterDollar textLower
    (kwAfterTerms textLower
      (kwAfterCode textLower (stateCode.map Char.toLower)
        (kwAfterName textLower (stateName.map Char.toLower))))) 1

/-- `const relevanceScore = (semanticScore * 0.7) + (keywordScore * 0.3)`
(route, line 303).  No clamping is applied by the source. -/
def relevanceScore (semanticScore keywordScore : ℚ) : ℚ :=
  semanticScore * (7/10) + keywordScore * (3/10)

/-- Index of the last `.` in a character list, the embedding of
`excerpt.lastIndexOf(".")`; `none` plays the role of the JavaScript
result `-1`. -/
def lastDotIdx (l : Chars) : Option ℕ :=
  (l.reverse.findIdx? (fun c => c == '.')).map (fun j => l.length - 1 - j)

/-- Excerpt construction (route, lines 307-314): first 200 characters,
cut at the last sentence end when it lies beyond position 100, otherwise
an ellipsis is appended. -/
def mkExcerptRaw (text : Chars) : Chars :=
  let excerpt := text.take 200
  match lastDotIdx excerpt with
  | some i => if 100 < i then excerpt.take (i + 1) else excerpt ++ "...".toList
  | none => excerpt ++ "...".toList

/-- The embedding of `String.prototype.trim()`. -/
def trimC (s : Chars) : Chars :=
  ((s.dropWhile isJsSpace).reverse.dropWhile isJsSpace).reverse

/-- The `StateProvision` interface of the route (lines 139-150).  The
source field `section` is called `sectionLabel` here because `section`
is a Lean keyword. -/
structure StateProvision where
  id : String
  text : Chars
  sectionLabel : Option Chars
  excerpt : Chars
  relevanceScore : ℚ
  semanticScore : ℚ
  keywordScore : ℚ
  chatPrompt : Chars
  friendlyTitle : Option Chars := none
  friendlyDescription : Option Chars := none
deriving DecidableEq, Repr

/-! ## Multi-query retriever merge (route, lines 224-263) -/

/-- One vector-index match: `{id, score, metadata}`.  The score is
optional because the source reads it as `match.score || 0`. -/
structure PMatch where
  id : String
  score : Option ℚ
  metadata : Option ChunkMeta
deriving DecidableEq, Repr

/-- `match.score || 0` (route, line 247). -/
def jsOrQ (o : Option ℚ) : ℚ := o.getD 0

/-- An entry of the merged candidate map: chunk id, the stored match and
the stored best semantic score.  The source keeps two maps
(`allMatches`, `semanticScores`) updated in lockstep under the same
keys; they are fused into one association list here, which preserves the
JavaScript `Map` insertion-order iteration. -/
abbrev MergedEntry := String × PMatch × ℚ

/-- Stored semantic score for an id, the embedding of
`semanticScores.get(id)`. -/
def scoreLookup (id : String) (acc : List MergedEntry) : Option ℚ :=
  (acc.find? fun e => e.1 == id).map fun e => e.2.2

/-- `Map.prototype.set` on the fused map: replaces in place when the key
is present (JavaScript keeps the original insertion position), appends
otherwise. -/
def setEntry (id : String) (m : PMatch) (s : ℚ) : List MergedEntry → List MergedEntry
  | [] => [(id, m, s)]
  | e :: rest => if e.1 == id then (id, m, s) :: rest else e :: setEntry id m s rest

/-- The merge body of the retriever loop (route, lines 245-254): store
the match if its id is new or its score beats the stored score. -/
def updMatch (acc : List MergedEntry) (m : PMatch) : List MergedEntry :=
  let s := jsOrQ m.score
  match scoreLookup m.id acc with
  | none => acc ++ [(m.id, m, s)]
  | some old => if old < s then setEntry m.id m s acc else acc

/-- Folding the merge over a stream of matches (all successful queries,
in order). -/
def mergeMatches (ms : List PMatch) : List MergedEntry := ms.foldl updMatch []

/-- Outcome of one semantic sub-query: the catch block of the route
(lines 259-262) turns any failure into a skip.  A response with an
absent `matches` field behaves like `ok []`. -/
inductive QueryResult where
  | fail
  | ok (ms : List PMatch)
deriving DecidableEq, Repr

/-- Matches contributed by the successful sub-queries, in query order. -/
def gatherMatches (qrs : List QueryResult) : List PMatch :=
  qrs.foldl (fun acc r => match r with | .fail => acc | .ok ms => acc ++ ms) []

/-- The body of the scoring loop (route, lines 268-328) for one merged
entry: read text and section from metadata with fallbacks, compute the
keyword and relevance scores, build the excerpt and the chat prompt. -/
def provisionOfMatch (stateName stateCode : Chars) (e : MergedEntry) : StateProvision :=
  let text := jsOrC (e.2.1.metadata.bind ChunkMeta.text)
    (jsOrC (e.2.1.metadata.bind ChunkMeta.content) [])
  let sect := jsOrC (e.2.1.metadata.bind ChunkMeta.sectionLabel) "HR1 Provision".toList
  let semanticScore := e.2.2
  let kw := keywordScore text stateName stateCode
  let rel := relevanceScore semanticScore kw
  let excerpt := mkExcerptRaw text
  let chatPrompt := "Tell me more about this HR1 provision that affects ".toList ++
    stateName ++ ": \"".toList ++ excerpt ++ "\"".toList
  { id := e.1, text := text, sectionLabel := some sect, excerpt := trimC excerpt,
    relevanceScore := rel, semanticScore := semanticScore, keywordScore := kw,
    chatPrompt := chatPrompt }

/-- The scoring loop with the relevance cutoff as a parameter; the
source uses the fixed cutoff 0.5 (`relevanceScore > 0.5`, line 306). -/
def scoredProvisionsAt (threshold : ℚ) (stateName stateCode : Chars)
    (merged : List MergedEntry) : List StateProvision :=
  (merged.map (provisionOfMatch stateName stateCode)).filter
    fun p => threshold < p.relevanceScore

/-- The scoring loop exactly as in the source: cutoff 0.5. -/
def scoredProvisions (stateName stateCode : Chars)
    (merged : List MergedEntry) : List StateProvision :=
  scoredProvisionsAt (1/2) stateName stateCode merged

/-- Stable insertion keeping the list sorted by descending relevance:
a new element goes after all existing elements whose relevance is at
least as large, so ties keep the original retrieval order. -/
def insertByRelDesc (p : StateProvision) : List StateProvision → List StateProvision
  | [] => [p]
  | q :: rest =>
    if p.relevanceScore ≤ q.relevanceScore then q :: insertByRelDesc p rest
    else p :: q :: rest

/-- `scoredProvisions.sort((a, b) => b.relevanceScore - a.relevanceScore)`
(route, line 334): stable descending sort by relevance. -/
def sortByRelDesc (l : List StateProvision) : List StateProvision :=
  l.foldl (fun acc p => insertByRelDesc p acc) []

/-! ## Friendly summarizer (route, lines 64-137) -/

/-- One element of the JSON array expected from the model; a missing
field behaves like the empty string (both are falsy under `||`). -/
structure SummaryItem where
  title : Chars
  description : Chars
deriving DecidableEq, Repr

/-- Observable outcome of the summarizer model call: the call (or
anything else inside the outer try, such as indexing a non-array parse
result) threw; the response carried no content; the content failed to
parse as JSON; or it parsed to an array of items. -/
inductive SummOutcome where
  | callError
  | noContent
  | parseFail
  | parsed (xs : List SummaryItem)
deriving DecidableEq, Repr

/-- Index-aware map, the embedding of `Array.prototype.map` with the
index argument. -/
def mapIdxFrom (f : ℕ → α → β) : ℕ → List α → List β
  | _, [] => []
  | n, a :: l => f n a :: mapIdxFrom f (n + 1) l

/-- `generateFriendlySummaries` (route, lines 64-137): empty input is
returned unchanged; every failure path returns the input unchanged; a
parsed array (possibly shorter than the input) is applied positionally
with fallbacks `summaries[i]?.title || provision.section || "HR1
Provision"` and `summaries[i]?.description || provision.excerpt`. -/
def generateFriendlySummaries (provisions : List StateProvision)
    (outcome : SummOutcome) : List StateProvision :=
  if provisions.isEmpty then provisions
  else
    match outcome with
    | .callError => provisions
    | .noContent => provisions
    | .parseFail => provisions
    | .parsed xs =>
      mapIdxFrom (fun i p =>
        { p with
          friendlyTitle := some (jsOrC ((xs[i]?).map SummaryItem.title)
            (jsOrC p.sectionLabel "HR1 Provision".toList)),
          friendlyDescription := some (jsOrC ((xs[i]?).map SummaryItem.description)
            p.excerpt) }) 0 provisions

/-! ## Serving boundary (route, lines 160-367) -/

/-- The `StateProvisionsResponse` interface (route, lines 152-158). -/
structure StateProvisionsResponse where
  state : String
  stateName : Chars
  provisions : List StateProvision
  totalFound : ℕ
  processingTime : ℕ
deriving DecidableEq, Repr

/-- The live discovery computation of the route (lines 210-346):
retrieve and merge, score with the 0.5 cutoff, sort descending, keep the
top 10, summarize, and report `totalFound` as the number of provisions
that survived the cutoff. -/
def discover (stateCode : String) (stateName : Chars) (qrs : List QueryResult)
    (summ : SummOutcome) (elapsed : ℕ) : StateProvisionsResponse :=
  let merged := mergeMatches (gatherMatches qrs)
  let scored := scoredProvisions stateName stateCode.toList merged
  let top := (sortByRelDesc scored).take 10
  { state := stateCode, stateName := stateName,
    provisions := generateFriendlySummaries top summ,
    totalFound := scored.length, processingTime := elapsed }

/-- The `US_STATES` map of the route (lines 46-59). -/
def usStates : List (String × String) := [
  ("AL", "Alabama"), ("AK", "Alaska"), ("AZ", "Arizona"), ("AR", "Arkansas"),
  ("CA", "California"), ("CO", "Colorado"), ("CT", "Connecticut"),
  ("DE", "Delaware"), ("FL", "Florida"), ("GA", "Georgia"), ("HI", "Hawaii"),
  ("ID", "Idaho"), ("IL", "Illinois"), ("IN", "Indiana"), ("IA", "Iowa"),
  ("KS", "Kansas"), ("KY", "Kentucky"), ("LA", "Louisiana"), ("ME", "Maine"),
  ("MD", "Maryland"), ("MA", "Massachusetts"), ("MI", "Michigan"),
  ("MN", "Minnesota"), ("MS", "Mississippi"), ("MO", "Missouri"),
  ("MT", "Montana"), ("NE", "Nebraska"), ("NV", "Nevada"),
  ("NH", "New Hampshire"), ("NJ", "New Jersey"), ("NM", "New Mexico"),
  ("NY", "New York"), ("NC", "North Carolina"), ("ND", "North Dakota"),
  ("OH", "Ohio"), ("OK", "Oklahoma"), ("OR", "Oregon"), ("PA", "Pennsylvania"),
  ("RI", "Rhode Island"), ("SC", "South Carolina"), ("SD", "South Dakota"),
  ("TN", "Tennessee"), ("TX", "Texas"), ("UT", "Utah"), ("VT", "Vermont"),
  ("VA", "Virginia"), ("WA", "Washington"), ("WV", "West Virginia"),
  ("WI", "Wisconsin"), ("WY", "Wyoming"), ("DC", "District of Columbia"),
  ("PR", "Puerto Rico"), ("GU", "Guam"), ("VI", "U.S. Virgin Islands"),
  ("AS", "American Samoa"), ("MP", "Northern Mariana Islands")]

/-- `params.state?.toUpperCase()`; ASCII uppercase agrees with the
JavaScript behaviour on the inputs the table can accept. -/
def toUpperStr (s : String) : String := String.mk (s.toList.map Char.toUpper)

/-- Environment of one GET invocation: the request parameter, the
presence of the two credentials, the per-state cache file (`none`: no
file; `some none`: present but unreadable; `some (some r)`: readable),
whether live initialization or computation threw, and the observable
outcomes of the external calls. -/
structure RouteEnv where
  stateParam : Option String
  hasOpenAIKey : Bool
  hasPineconeKey : Bool
  cacheFile : Option (Option StateProvisionsResponse)
  liveCrash : Option String
  queryResults : List QueryResult
  summ : SummOutcome
  elapsed : ℕ
deriving DecidableEq, Repr

/-- Body of the JSON responses the route can produce. -/
inductive RouteBody where
  | errJson (msg : String)
  | cachedResult (r : StateProvisionsResponse)
  | freshResult (r : StateProvisionsResponse)
  | errDetails (msg details : String) (elapsed : ℕ)
deriving DecidableEq, Repr

/-- The GET handler of the route (lines 160-367) as a function from the
invocation environment to HTTP status and body: validate the state
code, serve a readable cache file, reject when a credential is missing,
otherwise run live discovery, converting a thrown error into the
structured 500 body of the final catch block. -/
def routeGET (env : RouteEnv) : ℕ × RouteBody :=
  match env.stateParam.map toUpperStr with
  | none => (400, .errJson "Invalid state code provided")
  | some code =>
    match (usStates.find? fun p => p.1 == code).map Prod.snd with
    | none => (400, .errJson "Invalid state code provided")
    | some stateName =>
      match env.cacheFile with
      | some (some cached) =>
        (200, .cachedResult { cached with processingTime := env.elapsed })
      | _ =>
        if !env.hasOpenAIKey || !env.hasPineconeKey then
          (500, .errJson "AI services not configured")
        else
          match env.liveCrash with
          | some msg =>
            (500, .errDetails "Failed to fetch state-specific provisions" msg env.elapsed)
          | none =>
            (200, .freshResult
              (discover code stateName.toList env.queryResults env.summ env.elapsed))

/-! ## Batch classifier run loop (classify_state_impacts.ts) -/

/-- `const BATCH_SIZE = 8` (line 16). -/
def BATCH_SIZE : ℕ := 8

/-- `const DELAY_MS = 200` (line 17). -/
def DELAY_MS : ℕ := 200

/-- `const MAX_RETRIES = 3` (line 18).  The constant is declared by the
source but referenced nowhere else in it. -/
def MAX_RETRIES : ℕ := 3

/-- The `StateClassification` record (lines 45-52). -/
structure StateClassification where
  chunkId : String
  hasStateImpact : Bool
  affectedStates : List String
  confidence : ℚ
  reasoning : Chars
  processingTime : ℕ
deriving DecidableEq, Repr

/-- The classification cache, a JavaScript `Map` keyed by chunk id and
serialized as a JSON object; modelled as an insertion-ordered
association list, which is exactly the shape the serialization
preserves. -/
abbrev Cache := List (String × StateClassification)

/-- `cache.set(key, v)`: replace in place or append. -/
def cacheSet (key : String) (v : StateClassification) : Cache → Cache
  | [] => [(key, v)]
  | e :: rest => if e.1 == key then (key, v) :: rest else e :: cacheSet key v rest

/-- `cache.has(key)`. -/
def cacheHas (key : String) (cache : Cache) : Bool :=
  (cache.find? fun e => e.1 == key).isSome

/-- Storing a batch of classifications
(`classifications.forEach(... cache.set ...)`, lines 500-502). -/
def insertAll (cs : List StateClassification) (cache : Cache) : Cache :=
  cs.foldl (fun acc c => cacheSet c.chunkId c acc) cache

/-- The batch slicing of `processAllChunks` (lines 479-484):
`filteredChunks.slice(i * BATCH_SIZE, i * BATCH_SIZE + BATCH_SIZE)` for
`i = 0 .. ceil(n / BATCH_SIZE) - 1`, written as a recursion. -/
def toBatches (l : List PineconeChunk) : List (List PineconeChunk) :=
  match l with
  | [] => []
  | c :: rest => ((c :: rest).take BATCH_SIZE) :: toBatches ((c :: rest).drop BATCH_SIZE)
termination_by l.length
decreasing_by
  simp [BATCH_SIZE]
  omega

/-- Outcome of one `classifyBatch` call: a parsed classification array,
an error whose message contains "rate limit", or any other thrown
error. -/
inductive BatchOutcome where
  | ok (cs : List StateClassification)
  | rateLimit
  | fatal
deriving DecidableEq, Repr

/-- `batch.filter(chunk => !this.cache.has(chunk.id))` (line 487). -/
def unprocessedOf (cache : Cache) (batch : List PineconeChunk) : List PineconeChunk :=
  batch.filter fun c => !cacheHas c.id cache

/-- State of the batch loop of `processAllChunks` (lines 482-537):
the loop index, the number of `classifyBatch` invocations issued so far
(the index into the outcome oracle), the in-memory cache, the
`processedChunks` and `lastProcessedId` progress fields, the number of
cache/progress flush points reached, the milliseconds spent in explicit
waits, and every chunk ever passed to `classifyBatch`. -/
@[ext] structure RunState where
  batchIdx : ℕ
  attempts : ℕ
  cache : Cache
  processedChunks : ℕ
  flushes : ℕ
  waitedMs : ℕ
  lastProcessedId : Option String
  sent : List PineconeChunk
deriving DecidableEq, Repr

/-- Status of the run after some steps: still in the loop, finished
normally (with the unconditional final flush), or terminated by a
rethrown non-transient error (after flushing), which `main` converts to
`process.exit(1)`. -/
inductive RunOut where
  | running (s : RunState)
  | finished (s : RunState)
  | exitFail (s : RunState)
deriving DecidableEq, Repr

/-- One iteration of the batch loop (lines 482-537).  A fully-cached
batch is skipped without any call.  A successful call stores the
results, advances the progress fields, flushes every fifth batch and
waits `DELAY_MS` between batches.  A rate-limit failure flushes, waits
60 seconds and retries the same batch (`i--`).  Any other failure
flushes and rethrows. -/
def classifierStep (batches : List (List PineconeChunk))
    (outcomes : ℕ → BatchOutcome) (s : RunState) : RunOut :=
  match batches[s.batchIdx]? with
  | none => .finished { s with flushes := s.flushes + 1 }
  | some batch =>
    let unprocessed := unprocessedOf s.cache batch
    if unprocessed.isEmpty then .running { s with batchIdx := s.batchIdx + 1 }
    else
      match outcomes s.attempts with
      | .ok cs =>
        .running { s with
          batchIdx := s.batchIdx + 1,
          attempts := s.attempts + 1,
          cache := insertAll cs s.cache,
          processedChunks := s.processedChunks + unprocessed.length,
          flushes := if s.batchIdx % 5 == 0 then s.flushes + 1 else s.flushes,
          waitedMs := s.waitedMs +
            (if s.batchIdx + 1 < batches.length then DELAY_MS else 0),
          lastProcessedId := batch.getLast?.map PineconeChunk.id,
          sent := s.sent ++ unprocessed }
      | .rateLimit =>
        .running { s with
          attempts := s.attempts + 1,
          flushes := s.flushes + 1,
          waitedMs := s.waitedMs + 60000,
          sent := s.sent ++ unprocessed }
      | .fatal =>
        .exitFail { s with
          attempts := s.attempts + 1,
          flushes := s.flushes + 1,
          sent := s.sent ++ unprocessed }

/-- Iterating the loop a given number of steps; terminal states
absorb remaining fuel. -/
def runLoop (batches : List (List PineconeChunk)) (outcomes : ℕ → BatchOutcome) :
    ℕ → RunOut → RunOut
  | 0, st => st
  | n + 1, .running s => runLoop batches outcomes n (classifierStep batches outcomes s)
  | _ + 1, .finished s => .finished s
  | _ + 1, .exitFail s => .exitFail s

/-- Loop entry state for a given loaded cache. -/
def initState (cache : Cache) : RunState :=
  { batchIdx := 0, attempts := 0, cache := cache, processedChunks := 0,
    flushes := 0, waitedMs := 0, lastProcessedId := none, sent := [] }

/-- `processAllChunks` (lines 461-545) over an exported chunk list:
pre-filter, slice into batches of `BATCH_SIZE`, then run the batch loop
for the given number of steps against the outcome oracle. -/
def processAllChunksModel (allChunks : List PineconeChunk) (cache : Cache)
    (outcomes : ℕ → BatchOutcome) (fuel : ℕ) : RunOut :=
  runLoop (toBatches (allChunks.filter shouldProcessChunk)) outcomes fuel
    (.running (initState cache))

/-- The run state carried by a status. -/
def outState : RunOut → RunState
  | .running s => s
  | .finished s => s
  | .exitFail s => s

/-- Process exit status: `main` catches a rethrown error and calls
`process.exit(1)` (lines 708-711). -/
def exitCode : RunOut → Option ℕ
  | .exitFail _ => some 1
  | _ => none

/-! ## Claim-side definitions -/

/-- Claim-side rendering of the pre-filter contract as worded by claim
C3 and spec section 4.1: procedural text is kept when it also contains
a domestic-impact term.  To be compared with `shouldProcessChunk`. -/
def claimedPrefilterVerdict (t : Chars) : Bool :=
  if t.length < 100 then false
  else if proceduralHit t && !domesticHit t then false
  else if internationalHit t && !domesticHit t then false
  else stateImpactHit t

/-- Claim-side rendering of the response shape asserted by claim C9 and
spec section 7: a degraded, explanatory text response rather than a
hard error, i.e. a response served with a success status, as the chat
endpoint does for missing configuration.  To be compared with the
status actually produced by `routeGET`. -/
def specDegradedTextResponse (r : ℕ × RouteBody) : Prop := r.1 = 200

/-! ## Auxiliary notions used to state the theorems -/

/-- The value kept by the merge condition `stored < incoming`: the
incoming score when it strictly beats the stored one, the stored one
otherwise; agrees with the maximum in both cases. -/
def maxQ (a b : ℚ) : ℚ := if a < b then b else a

/-- Running best over a score stream, mirroring how the merge loop
threads the stored value through successive occurrences of one id. -/
def foldScores : Option ℚ → List ℚ → Option ℚ
  | o, [] => o
  | o, s :: rest =>
    foldScores (some (match o with | none => s | some a => maxQ a s)) rest

/-- The semantic scores observed for a given id across the whole match
stream, in order. -/
def scoresOf (id : String) (ms : List PMatch) : List ℚ :=
  (ms.filter fun m => m.id == id).map fun m => jsOrQ m.score

/-- A present, non-empty optional text. -/
def optNonEmptyText : Option Chars → Bool
  | some s => !s.isEmpty
  | none => false

/-! ## Concrete inputs used by counterexamples and witnesses -/

/-- A chunk text that is procedural (it contains `table of contents`),
longer than 100 characters, and carries both a domestic-impact term and
a word-boundary impact indicator (`funding`). -/
def textC3 : Chars :=
  ("the table of contents of this act lists federal funding provisions " ++
   "for highway bridge repair programs across every county.").toList

/-- A chunk carrying `textC3`. -/
def chunkC3 : PineconeChunk :=
  { id := "cex-c3",
    metadata := some { text := some textC3, content := none, sectionLabel := none } }

/-- A chunk whose metadata has neither a `text` nor a `content` field. -/
def chunkNoTextC3 : PineconeChunk :=
  { id := "w3",
    metadata := some { text := none, content := none, sectionLabel := none } }

/-- A provision with no friendly fields, used against the summarizer. -/
def provC4 : StateProvision :=
  { id := "p1", text := "t".toList, sectionLabel := some "Sec. 1".toList,
    excerpt := "exc...".toList, relevanceScore := 0, semanticScore := 0,
    keywordScore := 0, chatPrompt := [] }

/-- A chunk with no metadata at all, used against the batch loop. -/
def chunkC5 : PineconeChunk := { id := "c1", metadata := none }

/-- A chunk whose metadata has neither a `text` nor a `content` field. -/
def chunkNoTextC10 : PineconeChunk :=
  { id := "w10",
    metadata := some { text := none, content := none, sectionLabel := none } }

/-- A chunk text that passes the pre-filter: longer than 100 characters,
no procedural or international pattern, and the impact indicator
`funding` with word boundaries. -/
def textC2 : Chars :=
  ("federal funding for highway bridge repair shall be allocated to " ++
   "state transportation agencies through annual grants supporting " ++
   "rural county infrastructure projects.").toList

/-- A candidate chunk carrying `textC2`, accepted by the pre-filter. -/
def chunkCachedC2 : PineconeChunk :=
  { id := "cc2",
    metadata := some { text := some textC2, content := none, sectionLabel := none } }

/-- A classification cache that already contains `chunkCachedC2`. -/
def cacheC2 : Cache :=
  [("cc2", { chunkId := "cc2", hasStateImpact := true, affectedStates := ["CA"],
             confidence := 1, reasoning := "cached".toList, processingTime := 100 })]

/-- A small match stream with integer scores: id `a` is seen twice with
scores 1 and 2, id `b` once with an absent score. -/
def demoMatches : List PMatch :=
  [{ id := "a", score := some 1, metadata := none },
   { id := "a", score := some 2, metadata := none },
   { id := "b", score := none, metadata := none }]

/-- Invocation with a valid state, no cache file and a missing OpenAI
credential. -/
def envC9 : RouteEnv :=
  { stateParam := some "ca", hasOpenAIKey := false, hasPineconeKey := true,
    cacheFile := none, liveCrash := none, queryResults := [],
    summ := .callError, elapsed := 7 }

/-- Invocation with a valid state, no cache file and a missing Pinecone
credential. -/
def envC9b : RouteEnv :=
  { stateParam := some "tx", hasOpenAIKey := true, hasPineconeKey := false,
    cacheFile := none, liveCrash := none, queryResults := [],
    summ := .callError, elapsed := 3 }

/-! # Theorems -/

/-! ## Keyword-score bounds -/

theorem kwAfterName_nonneg (textLower stateNameLower : Chars) :
    0 ≤ kwAfterName textLower stateNameLower := by
  unfold kwAfterName
  split <;> norm_num

theorem le_kwAfterCode (textLower stateCodeLower : Chars) (k : ℚ) :
    k ≤ kwAfterCode textLower stateCodeLower k := by
  unfold kwAfterCode
  split <;> linarith

theorem le_kwAfterTerms (textLower : Chars) (k : ℚ) :
    k ≤ kwAfterTerms textLower k := by
  unfold kwAfterTerms
  generalize stateTerms = l
  induction l generalizing k with
  | nil => simp
  | cons t rest ih =>
    rw [List.foldl_cons]
    refine le_trans ?_ (ih _)
    split <;> linarith

theorem le_kwAfterDollar (textLower : Chars) (k : ℚ) :
    k ≤ kwAfterDollar textLower k := by
  unfold kwAfterDollar
  split <;> linarith

theorem keywordScore_nonneg (text stateName stateCode : Chars) :
    0 ≤ keywordScore text stateName stateCode := by
  simp only [keywordScore]
  refine le_min ?_ (by norm_num)
  refine le_trans (kwAfterName_nonneg (text.map Char.toLower)
    (stateName.map Char.toLower)) ?_
  refine le_trans (le_kwAfterCode (text.map Char.toLower)
    (stateCode.map Char.toLower) _) ?_
  refine le_trans (le_kwAfterTerms (text.map Char.toLower) _) ?_
  exact le_kwAfterDollar (text.map Char.toLower) _

theorem keywordScore_le_one (text stateName stateCode : Chars) :
    keywordScore text stateName stateCode ≤ 1 := by
  simp only [keywordScore]
  exact min_le_right _ _

/-- Claim C1, corrected.  The keyword score is always within [0, 1] and
the relevance score is exactly the weighted combination
0.7·semantic + 0.3·keyword (exact in rational arithmetic, which is the
floating-point tolerance reading); the relevance score itself is not
clamped by the code, and it lies within [0, 1] whenever the semantic
score delivered by the vector index lies within [0, 1]. -/
theorem claim_C1_score_bounds (text stateName stateCode : Chars) (s : ℚ) :
    (0 ≤ keywordScore text stateName stateCode ∧
      keywordScore text stateName stateCode ≤ 1) ∧
    relevanceScore s (keywordScore text stateName stateCode) =
      (7/10) * s + (3/10) * keywordScore text stateName stateCode ∧
    (0 ≤ s → s ≤ 1 →
      0 ≤ relevanceScore s (keywordScore text stateName stateCode) ∧
      relevanceScore s (keywordScore text stateName stateCode) ≤ 1) := by
  have h0 := keywordScore_nonneg text stateName stateCode
  have h1 := keywordScore_le_one text stateName stateCode
  refine ⟨⟨h0, h1⟩, by unfold relevanceScore; ring, fun hs0 hs1 => ⟨?_, ?_⟩⟩
  · unfold relevanceScore
    nlinarith
  · unfold relevanceScore
    nlinarith

/-- Claim C1 witness: the bounds at a concrete scored pair. -/
theorem claim_C1_score_bounds_witness :
    0 ≤ relevanceScore (1/2) (keywordScore [] "california".toList "ca".toList) ∧
    relevanceScore (1/2) (keywordScore [] "california".toList "ca".toList) ≤ 1 :=
  (claim_C1_score_bounds [] "california".toList "ca".toList (1/2)).2.2
    (by norm_num) (by norm_num)

/-- Claim C1 counterexample: the code never clamps the relevance score,
so a semantic score of 2 delivered by the index (scores above 1 are
possible for a dot-product metric, and negative ones for cosine) makes
the relevance score exceed 1, against the claimed bound
relevanceScore ≤ 1. -/
theorem claim_C1_counterexample :
    ¬ relevanceScore 2 (keywordScore [] "california".toList "ca".toList) ≤ 1 := by
  have h := keywordScore_nonneg [] "california".toList "ca".toList
  unfold relevanceScore
  intro hle
  nlinarith

/-! ## Threshold monotonicity -/

/-- Claim C8, confirmed: the code cutoff is the 0.5 instance of the
thresholded filter, and lowering the threshold keeps every retained
provision and never decreases the retained count. -/
theorem claim_C8_threshold_monotone (t tLow : ℚ) (h : tLow ≤ t)
    (stateName stateCode : Chars) (merged : List MergedEntry) :
    scoredProvisions stateName stateCode merged =
      scoredProvisionsAt (1/2) stateName stateCode merged ∧
    (∀ p ∈ scoredProvisionsAt t stateName stateCode merged,
      p ∈ scoredProvisionsAt tLow stateName stateCode merged) ∧
    (scoredProvisionsAt t stateName stateCode merged).length ≤
      (scoredProvisionsAt tLow stateName stateCode merged).length := by
  refine ⟨rfl, ?_, ?_⟩
  · intro p hp
    unfold scoredProvisionsAt at hp ⊢
    rw [List.mem_filter] at hp ⊢
    refine ⟨hp.1, ?_⟩
    have h2 := hp.2
    simp only [decide_eq_true_eq] at h2 ⊢
    linarith
  · unfold scoredProvisionsAt
    refine List.Sublist.length_le (List.monotone_filter_right _ ?_)
    intro p hp
    simp only [decide_eq_true_eq] at hp ⊢
    linarith

/-- Claim C8 witness: the monotonicity applied at thresholds 1/2 and
1/4 on a concrete candidate set. -/
theorem claim_C8_threshold_monotone_witness :
    (scoredProvisionsAt (1/2) "California".toList "CA".toList []).length ≤
      (scoredProvisionsAt (1/4) "California".toList "CA".toList []).length :=
  (claim_C8_threshold_monotone (1/2) (1/4) (by norm_num)
    "California".toList "CA".toList []).2.2

/-! ## Pre-filter -/

/-- Claim C3 counterexample: a text longer than 100 characters that
matches a procedural pattern (`table of contents`), contains a
domestic-impact term (`funding`) and matches an impact indicator.  The
claim predicts the pre-filter keeps it (procedural text is claimed to
survive when a domestic-impact term is present); the code rejects it:
the domestic-impact escape exists only for the international patterns,
not for the procedural ones. -/
theorem claim_C3_counterexample :
    shouldProcessChunk chunkC3 = false ∧
    claimedPrefilterVerdict (textOf chunkC3) = true := by
  constructor
  · decide
  · decide

/-- Claim C3, corrected: the pre-filter rejects short text; rejects
procedural text unconditionally (no domestic-impact escape); rejects
international text exactly when no domestic-impact term is present;
and otherwise answers exactly the impact-indicator test.  Being a pure
function of the chunk text, it is deterministic. -/
theorem claim_C3_prefilter (c : PineconeChunk) :
    ((textOf c).length < 100 → shouldProcessChunk c = false) ∧
    (proceduralHit (textOf c) = true → shouldProcessChunk c = false) ∧
    (internationalHit (textOf c) = true → domesticHit (textOf c) = false →
      shouldProcessChunk c = false) ∧
    (100 ≤ (textOf c).length → proceduralHit (textOf c) = false →
      (internationalHit (textOf c) = false ∨ domesticHit (textOf c) = true) →
      shouldProcessChunk c = stateImpactHit (textOf c)) := by
  simp only [shouldProcessChunk]
  refine ⟨fun h => ?_, fun h => ?_, fun h1 h2 => ?_, fun h1 h2 h3 => ?_⟩
  · simp [h]
  · simp [h]
  · simp [h1, h2]
  · rw [if_neg (by omega)]
    rcases h3 with h3 | h3 <;> simp [h2, h3]

/-- Claim C3 witness: the short-text rejection at a concrete chunk with
no text metadata. -/
theorem claim_C3_prefilter_witness :
    shouldProcessChunk chunkNoTextC3 = false :=
  (claim_C3_prefilter chunkNoTextC3).1 (by decide)

/-! ## Retriever total failure -/

theorem foldl_gather_all_fail : ∀ (qrs : List QueryResult),
    (∀ r ∈ qrs, r = QueryResult.fail) → ∀ acc : List PMatch,
    qrs.foldl (fun acc r => match r with
      | QueryResult.fail => acc
      | QueryResult.ok ms => acc ++ ms) acc = acc
  | [], _, _ => rfl
  | r :: rest, h, acc => by
    have hr : r = QueryResult.fail := h r (by simp)
    subst hr
    rw [List.foldl_cons]
    exact foldl_gather_all_fail rest (fun x hx => h x (by simp [hx])) acc

theorem gatherMatches_eq_nil (qrs : List QueryResult)
    (h : ∀ r ∈ qrs, r = QueryResult.fail) : gatherMatches qrs = [] :=
  foldl_gather_all_fail qrs h []

/-- Claim C7, confirmed: when every sub-query fails, the retriever
contributes no candidates and discovery completes normally with an
empty provision list and `totalFound = 0`. -/
theorem claim_C7_retriever_total_failure (stateCode : String) (stateName : Chars)
    (qrs : List QueryResult) (summ : SummOutcome) (elapsed : ℕ)
    (h : ∀ r ∈ qrs, r = QueryResult.fail) :
    (discover stateCode stateName qrs summ elapsed).provisions = [] ∧
    (discover stateCode stateName qrs summ elapsed).totalFound = 0 := by
  have hg : gatherMatches qrs = [] := gatherMatches_eq_nil qrs h
  unfold discover
  rw [hg]
  simp [mergeMatches, scoredProvisions, scoredProvisionsAt, sortByRelDesc,
    generateFriendlySummaries]

/-- Claim C7 witness: a concrete run with one failing sub-query. -/
theorem claim_C7_retriever_total_failure_witness :
    (discover "CA" "California".toList [QueryResult.fail]
      SummOutcome.callError 3).totalFound = 0 :=
  (claim_C7_retriever_total_failure "CA" "California".toList [QueryResult.fail]
    SummOutcome.callError 3 (by simp)).2

/-! ## Serving boundary on missing configuration -/

/-- Claim C9 counterexample: with a valid state, no cache file and a
missing credential, the route answers HTTP 500 with a structured JSON
error body, which is not the degraded success-status text response the
claim asserts. -/
theorem claim_C9_counterexample :
    routeGET envC9 = (500, RouteBody.errJson "AI services not configured") ∧
    ¬ specDegradedTextResponse (routeGET envC9) := by
  have h : routeGET envC9 = (500, RouteBody.errJson "AI services not configured") := by
    decide
  refine ⟨h, ?_⟩
  intro hdeg
  unfold specDegradedTextResponse at hdeg
  rw [h] at hdeg
  simp at hdeg

/-- Claim C9, corrected: when the state code is valid, no cache file
exists and a credential is missing, the route returns the handled,
structured 500 JSON error `AI services not configured` (it does not
throw and no stack trace escapes), rather than a degraded success-status
text response. -/
theorem claim_C9_config_missing (env : RouteEnv) (code name : String)
    (hparam : env.stateParam.map toUpperStr = some code)
    (hvalid : ((usStates.find? fun p => p.1 == code).map Prod.snd) = some name)
    (hcache : env.cacheFile = none)
    (hkeys : env.hasOpenAIKey = false ∨ env.hasPineconeKey = false) :
    routeGET env = (500, RouteBody.errJson "AI services not configured") := by
  unfold routeGET
  simp only [hparam, hvalid, hcache]
  rcases hkeys with h | h <;> simp [h]

/-- Claim C9 witness: the corrected behaviour at a concrete invocation
missing the Pinecone credential. -/
theorem claim_C9_config_missing_witness :
    routeGET envC9b = (500, RouteBody.errJson "AI services not configured") :=
  claim_C9_config_missing envC9b "TX" "Texas" (by decide) (by decide) rfl
    (Or.inr rfl)

/-! ## Friendly summarizer -/

theorem mapIdxFrom_length (f : ℕ → α → β) : ∀ (n : ℕ) (l : List α),
    (mapIdxFrom f n l).length = l.length
  | _, [] => rfl
  | n, a :: l => by
    simp [mapIdxFrom, mapIdxFrom_length f (n + 1) l]

theorem mem_mapIdxFrom {f : ℕ → α → β} {l : List α} {b : β} : ∀ {n : ℕ},
    b ∈ mapIdxFrom f n l → ∃ i a, a ∈ l ∧ b = f i a := by
  induction l with
  | nil => intro n hb; simp [mapIdxFrom] at hb
  | cons a l ih =>
    intro n hb
    simp only [mapIdxFrom, List.mem_cons] at hb
    rcases hb with hb | hb
    · exact ⟨n, a, by simp, hb⟩
    · obtain ⟨i, q, hq, hbq⟩ := ih hb
      exact ⟨i, q, by simp [hq], hbq⟩

theorem map_mapIdxFrom (f : ℕ → α → β) (g : β → γ) (g0 : α → γ)
    (h : ∀ i a, g (f i a) = g0 a) : ∀ (n : ℕ) (l : List α),
    (mapIdxFrom f n l).map g = l.map g0
  | _, [] => rfl
  | n, a :: l => by
    simp [mapIdxFrom, h, map_mapIdxFrom f g g0 h (n + 1) l]

theorem jsOrC_ne_nil (o : Option Chars) (d : Chars) (hd : d ≠ []) :
    jsOrC o d ≠ [] := by
  cases o with
  | none => exact hd
  | some s =>
    by_cases hs : s.isEmpty = true
    · simpa [jsOrC, hs] using hd
    · have hs2 : s ≠ [] := by simpa [List.isEmpty_iff] using hs
      simpa [jsOrC, hs] using hs2

/-- Claim C4 counterexample: on a model-call error the summarizer
returns the input list unchanged, so the returned provision still has
no friendly title at all, against the claim that every failure mode
yields non-empty titles and descriptions. -/
theorem claim_C4_counterexample :
    generateFriendlySummaries [provC4] SummOutcome.callError = [provC4] ∧
    provC4.friendlyTitle = none := by
  exact ⟨rfl, rfl⟩

/-- Claim C4, corrected: the summarizer is total (it never raises) and
always returns a list of the same length and order; on a model-call
error, missing content or parse failure it returns the input unchanged,
with no defaults applied; only in the parsed path (including an array
shorter than the input) does every provision get a non-empty friendly
title (falling back to its section label or `HR1 Provision`) and a
friendly description that is non-empty whenever its excerpt is. -/
theorem claim_C4_summarizer (ps : List StateProvision) (outcome : SummOutcome) :
    (generateFriendlySummaries ps outcome).length = ps.length ∧
    (generateFriendlySummaries ps outcome).map StateProvision.id =
      ps.map StateProvision.id ∧
    ((outcome = SummOutcome.callError ∨ outcome = SummOutcome.noContent ∨
        outcome = SummOutcome.parseFail) →
      generateFriendlySummaries ps outcome = ps) ∧
    (∀ xs, outcome = SummOutcome.parsed xs →
      ∀ p ∈ generateFriendlySummaries ps outcome,
        optNonEmptyText p.friendlyTitle = true ∧
        (p.excerpt ≠ [] → optNonEmptyText p.friendlyDescription = true)) := by
  by_cases hps : ps.isEmpty = true
  · have hnil : ps = [] := by simpa [List.isEmpty_iff] using hps
    subst hnil
    refine ⟨rfl, rfl, fun _ => rfl, ?_⟩
    intro xs hxs p hp
    simp [generateFriendlySummaries] at hp
  · have hps2 : ps.isEmpty = false := by simpa using hps
    cases outcome with
    | callError =>
      have hres : generateFriendlySummaries ps SummOutcome.callError = ps := by
        simp [generateFriendlySummaries, hps2]
      exact ⟨by rw [hres], by rw [hres], fun _ => hres, fun xs hxs => by cases hxs⟩
    | noContent =>
      have hres : generateFriendlySummaries ps SummOutcome.noContent = ps := by
        simp [generateFriendlySummaries, hps2]
      exact ⟨by rw [hres], by rw [hres], fun _ => hres, fun xs hxs => by cases hxs⟩
    | parseFail =>
      have hres : generateFriendlySummaries ps SummOutcome.parseFail = ps := by
        simp [generateFriendlySummaries, hps2]
      exact ⟨by rw [hres], by rw [hres], fun _ => hres, fun xs hxs => by cases hxs⟩
    | parsed xs0 =>
      have hres : generateFriendlySummaries ps (SummOutcome.parsed xs0) =
          mapIdxFrom (fun i p => { p with
            friendlyTitle := some (jsOrC ((xs0[i]?).map SummaryItem.title)
              (jsOrC p.sectionLabel "HR1 Provision".toList)),
            friendlyDescription := some (jsOrC ((xs0[i]?).map SummaryItem.description)
              p.excerpt) }) 0 ps := by
        simp [generateFriendlySummaries, hps2]
      have hlen : (generateFriendlySummaries ps (SummOutcome.parsed xs0)).length =
          ps.length := by
        rw [hres]
        exact mapIdxFrom_length _ 0 ps
      have hmap : (generateFriendlySummaries ps (SummOutcome.parsed xs0)).map
          StateProvision.id = ps.map StateProvision.id := by
        rw [hres]
        exact map_mapIdxFrom (fun i p => { p with
            friendlyTitle := some (jsOrC ((xs0[i]?).map SummaryItem.title)
              (jsOrC p.sectionLabel "HR1 Provision".toList)),
            friendlyDescription := some (jsOrC ((xs0[i]?).map SummaryItem.description)
              p.excerpt) })
          StateProvision.id StateProvision.id (fun i a => rfl) 0 ps
      refine ⟨hlen, hmap, fun hfail => ?_, ?_⟩
      · rcases hfail with h | h | h <;> cases h
      · intro xs hxs p hp
        rw [hres] at hp
        obtain ⟨i, q, hq, rfl⟩ := mem_mapIdxFrom hp
        constructor
        · have hne := jsOrC_ne_nil ((xs0[i]?).map SummaryItem.title)
            (jsOrC q.sectionLabel "HR1 Provision".toList)
            (jsOrC_ne_nil q.sectionLabel "HR1 Provision".toList (by decide))
          simpa [optNonEmptyText, List.isEmpty_iff] using hne
        · intro hexc
          have hne := jsOrC_ne_nil ((xs0[i]?).map SummaryItem.description)
            q.excerpt hexc
          simpa [optNonEmptyText, List.isEmpty_iff] using hne

/-- Claim C4 witness: the parsed path with an empty array applies the
non-empty defaults, and a failure outcome returns the input as is. -/
theorem claim_C4_summarizer_witness :
    optNonEmptyText ({ provC4 with
      friendlyTitle := some "Sec. 1".toList,
      friendlyDescription := some "exc...".toList } : StateProvision).friendlyTitle
      = true ∧
    generateFriendlySummaries [provC4] SummOutcome.noContent = [provC4] := by
  constructor
  · exact (((claim_C4_summarizer [provC4] (SummOutcome.parsed [])).2.2.2) [] rfl
      _ (by decide)).1
  · exact (claim_C4_summarizer [provC4] SummOutcome.noContent).2.2.1
      (Or.inr (Or.inl rfl))

/-! ## Retriever merge keeps the maximum score -/

theorem scoreLookup_cons (id : String) (e : MergedEntry) (l : List MergedEntry) :
    scoreLookup id (e :: l) =
      if e.1 == id then some e.2.2 else scoreLookup id l := by
  by_cases he : (e.1 == id) = true
  · simp [scoreLookup, List.find?_cons_of_pos, he]
  · simp [scoreLookup, List.find?_cons_of_neg, he]

theorem scoreLookup_append (id : String) (l1 l2 : List MergedEntry) :
    scoreLookup id (l1 ++ l2) =
      ((l1.find? fun e => e.1 == id).map fun e => e.2.2).orElse
        (fun _ => scoreLookup id l2) := by
  unfold scoreLookup
  rw [List.find?_append]
  cases l1.find? fun e => e.1 == id <;> simp [Option.orElse]

theorem scoreLookup_setEntry_self (id : String) (m : PMatch) (s : ℚ) :
    ∀ acc : List MergedEntry, scoreLookup id (setEntry id m s acc) = some s
  | [] => by simp [setEntry, scoreLookup_cons, scoreLookup]
  | e :: rest => by
    by_cases he : (e.1 == id) = true
    · simp [setEntry, he, scoreLookup_cons]
    · simp only [setEntry, he, Bool.false_eq_true, if_false]
      rw [scoreLookup_cons, if_neg (by simp_all)]
      exact scoreLookup_setEntry_self id m s rest

theorem scoreLookup_setEntry_other (id2 id : String) (m : PMatch) (s : ℚ)
    (h : id2 ≠ id) :
    ∀ acc : List MergedEntry,
      scoreLookup id2 (setEntry id m s acc) = scoreLookup id2 acc
  | [] => by
    simp [setEntry, scoreLookup_cons, scoreLookup, Ne.symm h]
  | e :: rest => by
    by_cases he : (e.1 == id) = true
    · have he2 : e.1 = id := by simpa using he
      simp only [setEntry, he, if_true]
      rw [scoreLookup_cons, scoreLookup_cons]
      rw [if_neg (by simp [Ne.symm h]), if_neg (by simp [he2, Ne.symm h])]
    · simp only [setEntry, he, Bool.false_eq_true, if_false]
      rw [scoreLookup_cons, scoreLookup_cons]
      by_cases he2 : (e.1 == id2) = true
      · simp [he2]
      · rw [if_neg (by simpa using he2), if_neg (by simpa using he2)]
        exact scoreLookup_setEntry_other id2 id m s h rest

theorem keys_setEntry (id : String) (m : PMatch) (s : ℚ) :
    ∀ acc : List MergedEntry, scoreLookup id acc ≠ none →
      (setEntry id m s acc).map Prod.fst = acc.map Prod.fst
  | [], hpres => absurd rfl hpres
  | e :: rest, hpres => by
    by_cases he : (e.1 == id) = true
    · have he2 : e.1 = id := by simpa using he
      simp [setEntry, he, he2]
    · rw [scoreLookup_cons, if_neg (by simpa using he)] at hpres
      simp only [setEntry, he, Bool.false_eq_true, if_false, List.map_cons]
      rw [keys_setEntry id m s rest hpres]

theorem updMatch_of_none (acc : List MergedEntry) (m : PMatch)
    (h : scoreLookup m.id acc = none) :
    updMatch acc m = acc ++ [(m.id, m, jsOrQ m.score)] := by
  simp only [updMatch, h]

theorem updMatch_of_some (acc : List MergedEntry) (m : PMatch) (old : ℚ)
    (h : scoreLookup m.id acc = some old) :
    updMatch acc m =
      if old < jsOrQ m.score then setEntry m.id m (jsOrQ m.score) acc else acc := by
  simp only [updMatch, h]

theorem not_mem_keys_of_lookup_none (id : String) (acc : List MergedEntry)
    (h : scoreLookup id acc = none) : id ∉ acc.map Prod.fst := by
  intro hmem
  obtain ⟨e, he, heq⟩ := List.mem_map.mp hmem
  unfold scoreLookup at h
  cases hf : List.find? (fun x => x.1 == id) acc with
  | some e2 => rw [hf] at h; simp at h
  | none =>
    rw [List.find?_eq_none] at hf
    exact hf e he (by simp [heq])

theorem scoreLookup_updMatch_self (acc : List MergedEntry) (m : PMatch) :
    scoreLookup m.id (updMatch acc m) =
      some (match scoreLookup m.id acc with
        | none => jsOrQ m.score
        | some a => maxQ a (jsOrQ m.score)) := by
  cases h : scoreLookup m.id acc with
  | none =>
    rw [updMatch_of_none acc m h]
    rw [scoreLookup_append]
    unfold scoreLookup at h
    rw [h]
    simp [scoreLookup_cons, scoreLookup, Option.orElse]
  | some a =>
    rw [updMatch_of_some acc m a h]
    by_cases hlt : a < jsOrQ m.score
    · rw [if_pos hlt, scoreLookup_setEntry_self]
      simp [maxQ, hlt]
    · rw [if_neg hlt, h]
      simp [maxQ, hlt]

theorem scoreLookup_updMatch_other (acc : List MergedEntry) (m : PMatch)
    (id2 : String) (h : id2 ≠ m.id) :
    scoreLookup id2 (updMatch acc m) = scoreLookup id2 acc := by
  cases hl : scoreLookup m.id acc with
  | none =>
    rw [updMatch_of_none acc m hl, scoreLookup_append]
    unfold scoreLookup
    cases hf : acc.find? fun e => e.1 == id2 with
    | none =>
      simp [Option.orElse, scoreLookup_cons, scoreLookup, Ne.symm h]
    | some e => simp [Option.orElse]
  | some a =>
    rw [updMatch_of_some acc m a hl]
    by_cases hlt : a < jsOrQ m.score
    · rw [if_pos hlt]
      exact scoreLookup_setEntry_other id2 m.id m (jsOrQ m.score) h acc
    · rw [if_neg hlt]

theorem keys_nodup_updMatch (acc : List MergedEntry) (m : PMatch)
    (h : (acc.map Prod.fst).Nodup) : ((updMatch acc m).map Prod.fst).Nodup := by
  cases hl : scoreLookup m.id acc with
  | none =>
    rw [updMatch_of_none acc m hl]
    have hnm := not_mem_keys_of_lookup_none m.id acc hl
    simp [List.nodup_append, h, hnm]
  | some a =>
    rw [updMatch_of_some acc m a hl]
    by_cases hlt : a < jsOrQ m.score
    · rw [if_pos hlt, keys_setEntry m.id m (jsOrQ m.score) acc (by simp [hl])]
      exact h
    · rw [if_neg hlt]
      exact h

theorem keys_nodup_foldl : ∀ (ms : List PMatch) (acc : List MergedEntry),
    (acc.map Prod.fst).Nodup → ((ms.foldl updMatch acc).map Prod.fst).Nodup
  | [], _, h => h
  | m :: rest, acc, h => by
    rw [List.foldl_cons]
    exact keys_nodup_foldl rest (updMatch acc m) (keys_nodup_updMatch acc m h)

theorem scoreLookup_foldl_updMatch : ∀ (ms : List PMatch) (acc : List MergedEntry)
    (id : String),
    scoreLookup id (ms.foldl updMatch acc) =
      foldScores (scoreLookup id acc) (scoresOf id ms)
  | [], acc, id => by simp [scoresOf, foldScores]
  | m :: rest, acc, id => by
    rw [List.foldl_cons, scoreLookup_foldl_updMatch rest (updMatch acc m) id]
    by_cases hid : (m.id == id) = true
    · have hEq : m.id = id := by simpa using hid
      subst hEq
      rw [scoreLookup_updMatch_self acc m]
      have hsc : scoresOf m.id (m :: rest) =
          jsOrQ m.score :: scoresOf m.id rest := by
        simp [scoresOf, List.filter_cons]
      rw [hsc]
      cases scoreLookup m.id acc <;> rfl
    · have hne : m.id ≠ id := by simpa using hid
      rw [scoreLookup_updMatch_other acc m id (fun hh => hne hh.symm)]
      have hsc : scoresOf id (m :: rest) = scoresOf id rest := by
        simp [scoresOf, List.filter_cons, hid]
      rw [hsc]

theorem foldScores_some : ∀ (l : List ℚ) (a : ℚ),
    foldScores (some a) l = some (l.foldl maxQ a)
  | [], _ => rfl
  | s :: l, a => foldScores_some l (maxQ a s)

theorem le_foldl_maxQ : ∀ (l : List ℚ) (a : ℚ), a ≤ l.foldl maxQ a
  | [], _ => le_refl _
  | s :: l, a => by
    rw [List.foldl_cons]
    refine le_trans ?_ (le_foldl_maxQ l (maxQ a s))
    unfold maxQ
    split
    · linarith
    · exact le_refl a

theorem mem_le_foldl_maxQ {x : ℚ} : ∀ {l : List ℚ} (a : ℚ), x ∈ l →
    x ≤ l.foldl maxQ a
  | [], _, hx => by simp at hx
  | s :: l, a, hx => by
    rw [List.foldl_cons]
    rcases List.mem_cons.mp hx with rfl | hx2
    · refine le_trans ?_ (le_foldl_maxQ l (maxQ a x))
      unfold maxQ
      split
      · exact le_refl x
      · linarith [not_lt.mp (by assumption : ¬ a < x)]
    · exact mem_le_foldl_maxQ (maxQ a s) hx2

theorem foldl_maxQ_mem : ∀ (l : List ℚ) (a : ℚ),
    l.foldl maxQ a = a ∨ l.foldl maxQ a ∈ l
  | [], _ => Or.inl rfl
  | s :: l, a => by
    rw [List.foldl_cons]
    rcases foldl_maxQ_mem l (maxQ a s) with h | h
    · rw [h]
      unfold maxQ
      split
      · exact Or.inr (by simp)
      · exact Or.inl rfl
    · exact Or.inr (List.mem_cons_of_mem s h)

/-- Claim C6, confirmed: after the merge, each chunk id appears at most
once, and the stored semantic score for an id is exactly the maximum
score observed for that id across the whole query stream (an element of
the observed scores that bounds them all) — scores are never summed. -/
theorem claim_C6_merge_keeps_max (ms : List PMatch) :
    ((mergeMatches ms).map Prod.fst).Nodup ∧
    ∀ id s, scoreLookup id (mergeMatches ms) = some s ↔
      (s ∈ scoresOf id ms ∧ ∀ x ∈ scoresOf id ms, x ≤ s) := by
  constructor
  · exact keys_nodup_foldl ms [] (by simp)
  · intro id s
    have hL := scoreLookup_foldl_updMatch ms [] id
    rw [show scoreLookup id [] = none from rfl] at hL
    rw [show mergeMatches ms = ms.foldl updMatch [] from rfl, hL]
    cases hSc : scoresOf id ms with
    | nil => simp [foldScores]
    | cons s0 rest =>
      rw [show foldScores none (s0 :: rest) = foldScores (some s0) rest from rfl]
      rw [foldScores_some]
      constructor
      · intro h
        have hs : s = rest.foldl maxQ s0 := by
          injection h with h2
          exact h2.symm
        subst hs
        constructor
        · rcases foldl_maxQ_mem rest s0 with h1 | h1
          · rw [h1]
            exact List.mem_cons_self s0 rest
          · exact List.mem_cons_of_mem s0 h1
        · intro x hx
          rcases List.mem_cons.mp hx with rfl | hx2
          · exact le_foldl_maxQ rest x
          · exact mem_le_foldl_maxQ s0 hx2
      · rintro ⟨hmem, hub⟩
        have h1 : rest.foldl maxQ s0 ≤ s := by
          rcases foldl_maxQ_mem rest s0 with h1 | h1
          · rw [h1]
            exact hub s0 (List.mem_cons_self s0 rest)
          · exact hub _ (List.mem_cons_of_mem s0 h1)
        have h2 : s ≤ rest.foldl maxQ s0 := by
          rcases List.mem_cons.mp hmem with rfl | hmem2
          · exact le_foldl_maxQ rest s
          · exact mem_le_foldl_maxQ s0 hmem2
        rw [le_antisymm h1 h2]

/-- Claim C6 witness: on a concrete stream where id `a` appears with
scores 1 and then 2 and id `b` has an absent score, the merged map is
duplicate-free and stores 2 for `a`. -/
theorem claim_C6_merge_keeps_max_witness :
    ((mergeMatches demoMatches).map Prod.fst).Nodup ∧
    scoreLookup "a" (mergeMatches demoMatches) = some 2 := by
  refine ⟨(claim_C6_merge_keeps_max demoMatches).1, ?_⟩
  exact ((claim_C6_merge_keeps_max demoMatches).2 "a" 2).mpr ⟨by decide, by decide⟩

/-! ## Batch classifier -/

theorem toBatches_mem : ∀ (n : ℕ) (l : List PineconeChunk), l.length ≤ n →
    ∀ b ∈ toBatches l, ∀ c ∈ b, c ∈ l
  | _, [], _, b, hb => by simp [toBatches] at hb
  | 0, x :: rest, hlen, b, hb => by simp at hlen
  | n + 1, x :: rest, hlen, b, hb => by
    rw [toBatches] at hb
    intro c hc
    rcases List.mem_cons.mp hb with rfl | hb2
    · exact List.mem_of_mem_take hc
    · have hrec := toBatches_mem n ((x :: rest).drop BATCH_SIZE)
        (by simp [BATCH_SIZE] at hlen ⊢; omega) b hb2 c hc
      exact List.mem_of_mem_drop hrec

theorem toBatches_subset (l : List PineconeChunk) (b : List PineconeChunk)
    (hb : b ∈ toBatches l) : ∀ c ∈ b, c ∈ l :=
  toBatches_mem l.length l (le_refl _) b hb

theorem runLoop_finished (batches : List (List PineconeChunk))
    (outcomes : ℕ → BatchOutcome) :
    ∀ (n : ℕ) (s : RunState),
      runLoop batches outcomes n (RunOut.finished s) = RunOut.finished s
  | 0, _ => rfl
  | _ + 1, _ => rfl

theorem runLoop_all_cached (batches : List (List PineconeChunk))
    (outcomes : ℕ → BatchOutcome) (cache : Cache)
    (hAll : ∀ b ∈ batches, unprocessedOf cache b = []) :
    ∀ (n : ℕ) (s : RunState), s.cache = cache → s.batchIdx ≤ batches.length →
      batches.length < s.batchIdx + n →
      runLoop batches outcomes n (RunOut.running s) =
        RunOut.finished
          { s with batchIdx := batches.length, flushes := s.flushes + 1 }
  | 0, s, _, hle, hlt => by omega
  | n + 1, s, hc, hle, hlt => by
    show runLoop batches outcomes n (classifierStep batches outcomes s) = _
    by_cases hidx : s.batchIdx < batches.length
    · have hbatch : batches[s.batchIdx]? = some batches[s.batchIdx] :=
        List.getElem?_eq_getElem hidx
      have hmem : batches[s.batchIdx] ∈ batches := List.getElem_mem hidx
      have hunproc : unprocessedOf s.cache batches[s.batchIdx] = [] := by
        rw [hc]
        exact hAll _ hmem
      have hstep : classifierStep batches outcomes s =
          RunOut.running { s with batchIdx := s.batchIdx + 1 } := by
        simp only [classifierStep, hbatch, hunproc]
        rfl
      rw [hstep]
      exact runLoop_all_cached batches outcomes cache hAll n
        { s with batchIdx := s.batchIdx + 1 } hc (by simpa using hidx)
        (by simp; omega)
    · have hidx2 : s.batchIdx = batches.length := by omega
      have hnone : batches[s.batchIdx]? = none := List.getElem?_eq_none (by omega)
      have hstep : classifierStep batches outcomes s =
          RunOut.finished { s with flushes := s.flushes + 1 } := by
        simp only [classifierStep, hnone]
      rw [hstep, runLoop_finished]
      rw [← hidx2]

/-- Claim C2, confirmed: when every pre-filtered candidate is already in
the classification cache, a full re-run skips every batch, issues zero
`classifyBatch` calls (zero entries are ever sent), and finishes with
the cache exactly as loaded — so its serialization is byte-identical. -/
theorem claim_C2_idempotent (allChunks : List PineconeChunk) (cache : Cache)
    (outcomes : ℕ → BatchOutcome)
    (h : ∀ c ∈ allChunks, shouldProcessChunk c = true → cacheHas c.id cache = true) :
    processAllChunksModel allChunks cache outcomes
        ((toBatches (allChunks.filter shouldProcessChunk)).length + 1) =
      RunOut.finished
        { batchIdx := (toBatches (allChunks.filter shouldProcessChunk)).length,
          attempts := 0, cache := cache, processedChunks := 0, flushes := 1,
          waitedMs := 0, lastProcessedId := none, sent := [] } := by
  have hAll : ∀ b ∈ toBatches (allChunks.filter shouldProcessChunk),
      unprocessedOf cache b = [] := by
    intro b hb
    unfold unprocessedOf
    rw [List.filter_eq_nil_iff]
    intro c hc
    have hcf : c ∈ allChunks.filter shouldProcessChunk :=
      toBatches_subset _ b hb c hc
    rw [List.mem_filter] at hcf
    have hhas := h c hcf.1 hcf.2
    simp [hhas]
  unfold processAllChunksModel
  exact runLoop_all_cached _ outcomes cache hAll
    ((toBatches (allChunks.filter shouldProcessChunk)).length + 1)
    (initState cache) rfl (by simp [initState]) (by simp [initState])

/-- Claim C2 witness: a concrete re-run over a candidate chunk that
passes the pre-filter and is already cached — the single batch is
skipped, zero `classifyBatch` calls are issued (no chunk is ever sent)
and the cache comes out exactly as it went in. -/
theorem claim_C2_idempotent_witness :
    processAllChunksModel [chunkCachedC2] cacheC2 (fun _ => BatchOutcome.fatal) 2 =
      RunOut.finished
        { batchIdx := 1, attempts := 0, cache := cacheC2, processedChunks := 0,
          flushes := 1, waitedMs := 0, lastProcessedId := none, sent := [] } := by
  have h := claim_C2_idempotent [chunkCachedC2] cacheC2
    (fun _ => BatchOutcome.fatal) (by decide)
  have hfilter : [chunkCachedC2].filter shouldProcessChunk = [chunkCachedC2] := by
    decide
  rw [hfilter] at h
  simpa [toBatches, BATCH_SIZE] using h

theorem step_sent_subset (batches : List (List PineconeChunk))
    (outcomes : ℕ → BatchOutcome) (s : RunState)
    (h : ∀ c ∈ s.sent, c ∈ batches.flatten) :
    ∀ c ∈ (outState (classifierStep batches outcomes s)).sent,
      c ∈ batches.flatten := by
  cases hbatch : batches[s.batchIdx]? with
  | none =>
    simp only [classifierStep, hbatch]
    exact h
  | some batch =>
    have hbm : batch ∈ batches := by
      rw [List.getElem?_eq_some] at hbatch
      obtain ⟨hlt, heq⟩ := hbatch
      rw [← heq]
      exact List.getElem_mem hlt
    have hsub : ∀ x ∈ unprocessedOf s.cache batch, x ∈ batches.flatten := by
      intro x hx
      have hxb : x ∈ batch := List.mem_of_mem_filter hx
      exact List.mem_flatten.mpr ⟨batch, hbm, hxb⟩
    simp only [classifierStep, hbatch]
    by_cases hemp : (unprocessedOf s.cache batch).isEmpty = true
    · simp only [hemp, if_true]
      exact h
    · simp only [hemp, Bool.false_eq_true, if_false]
      cases houtcome : outcomes s.attempts with
      | ok cs =>
        intro c hc
        rcases List.mem_append.mp hc with h1 | h1
        · exact h c h1
        · exact hsub c h1
      | rateLimit =>
        intro c hc
        rcases List.mem_append.mp hc with h1 | h1
        · exact h c h1
        · exact hsub c h1
      | fatal =>
        intro c hc
        rcases List.mem_append.mp hc with h1 | h1
        · exact h c h1
        · exact hsub c h1

theorem runLoop_sent_subset (batches : List (List PineconeChunk))
    (outcomes : ℕ → BatchOutcome) :
    ∀ (n : ℕ) (st : RunOut),
      (∀ c ∈ (outState st).sent, c ∈ batches.flatten) →
      ∀ c ∈ (outState (runLoop batches outcomes n st)).sent, c ∈ batches.flatten
  | 0, _, h => h
  | _ + 1, RunOut.finished _, h => h
  | _ + 1, RunOut.exitFail _, h => h
  | n + 1, RunOut.running s, h =>
    runLoop_sent_subset batches outcomes n (classifierStep batches outcomes s)
      (step_sent_subset batches outcomes s h)

/-- Claim C10, confirmed: a chunk whose metadata has neither text nor
content (or whose text is shorter than 100 characters) is rejected by
the pre-filter, and no run of the batch pipeline ever passes it to a
`classifyBatch` call. -/
theorem claim_C10_textless_chunks (c : PineconeChunk)
    (h : (textOf c).length < 100) :
    shouldProcessChunk c = false ∧
    ∀ (allChunks : List PineconeChunk) (cache : Cache)
      (outcomes : ℕ → BatchOutcome) (fuel : ℕ),
      c ∉ (outState (processAllChunksModel allChunks cache outcomes fuel)).sent := by
  have hfalse : shouldProcessChunk c = false := by
    unfold shouldProcessChunk
    simp [h]
  refine ⟨hfalse, ?_⟩
  intro allChunks cache outcomes fuel hmem
  unfold processAllChunksModel at hmem
  have hjoin := runLoop_sent_subset _ outcomes fuel
    (RunOut.running (initState cache)) (by simp [initState, outState]) c hmem
  obtain ⟨b, hb, hcb⟩ := List.mem_flatten.mp hjoin
  have hcf : c ∈ allChunks.filter shouldProcessChunk :=
    toBatches_subset _ b hb c hcb
  rw [List.mem_filter, hfalse] at hcf
  simp at hcf

/-- Claim C10 witness: a chunk with neither text nor content is dropped
and never sent in a concrete run. -/
theorem claim_C10_textless_chunks_witness :
    shouldProcessChunk chunkNoTextC10 = false ∧
    chunkNoTextC10 ∉ (outState (processAllChunksModel [chunkNoTextC10] []
      (fun _ => BatchOutcome.ok []) 2)).sent := by
  have h := claim_C10_textless_chunks chunkNoTextC10 (by decide)
  exact ⟨h.1, h.2 [chunkNoTextC10] [] (fun _ => BatchOutcome.ok []) 2⟩

/-- Claim C5 counterexample: `MAX_RETRIES = 3` is declared but never
consulted; after five consecutive rate-limit failures — more than
`MAX_RETRIES + 1` attempts — the loop is still retrying batch 0 and has
not escalated to a fatal exit, against the claimed bounded retry
count. -/
theorem claim_C5_counterexample :
    runLoop [[chunkC5]] (fun _ => BatchOutcome.rateLimit) 5
        (RunOut.running (initState [])) =
      RunOut.running
        { batchIdx := 0, attempts := 5, cache := [], processedChunks := 0,
          flushes := 5, waitedMs := 300000, lastProcessedId := none,
          sent := [chunkC5, chunkC5, chunkC5, chunkC5, chunkC5] } ∧
    MAX_RETRIES + 1 < 5 := by
  constructor
  · decide
  · decide

theorem runLoop_rateLimit_unbounded (batches : List (List PineconeChunk))
    (outcomes : ℕ → BatchOutcome)
    (hout : ∀ k, outcomes k = BatchOutcome.rateLimit) :
    ∀ (n : ℕ) (s : RunState) (batch : List PineconeChunk),
      batches[s.batchIdx]? = some batch →
      (unprocessedOf s.cache batch).isEmpty = false →
      ∃ s2, runLoop batches outcomes n (RunOut.running s) = RunOut.running s2 ∧
        s2.batchIdx = s.batchIdx ∧ s2.attempts = s.attempts + n ∧
        s2.cache = s.cache ∧ s2.waitedMs = s.waitedMs + 60000 * n
  | 0, s, batch, hb, hu => ⟨s, rfl, rfl, by omega, rfl, by omega⟩
  | n + 1, s, batch, hb, hu => by
    have hstep : classifierStep batches outcomes s = RunOut.running
        { s with
            attempts := s.attempts + 1, flushes := s.flushes + 1,
            waitedMs := s.waitedMs + 60000,
            sent := s.sent ++ unprocessedOf s.cache batch } := by
      simp only [classifierStep, hb, hu, Bool.false_eq_true, if_false, hout]
    show ∃ s2, runLoop batches outcomes n (classifierStep batches outcomes s) =
      RunOut.running s2 ∧ _
    rw [hstep]
    obtain ⟨s2, h1, h2, h3, h4, h5⟩ := runLoop_rateLimit_unbounded batches
      outcomes hout n
      { s with
          attempts := s.attempts + 1, flushes := s.flushes + 1,
          waitedMs := s.waitedMs + 60000,
          sent := s.sent ++ unprocessedOf s.cache batch } batch hb hu
    refine ⟨s2, h1, by simpa using h2, by simp at h3; omega, by simpa using h4, ?_⟩
    simp at h5
    omega

/-- Claim C5, corrected: a rate-limit failure first persists cache and
progress, waits the fixed 60-second backoff and retries the same batch;
a non-transient failure persists cache and progress and terminates the
run with exit status 1; but the retry count is unbounded — under
persistent rate limiting the loop retries the same batch forever
(`MAX_RETRIES` is declared and never used), with no escalation to
fatal. -/
theorem claim_C5_transient_retry (batches : List (List PineconeChunk))
    (outcomes : ℕ → BatchOutcome) (s : RunState) (batch : List PineconeChunk)
    (hb : batches[s.batchIdx]? = some batch)
    (hu : (unprocessedOf s.cache batch).isEmpty = false) :
    (outcomes s.attempts = BatchOutcome.rateLimit →
      classifierStep batches outcomes s = RunOut.running { s with
        attempts := s.attempts + 1, flushes := s.flushes + 1,
        waitedMs := s.waitedMs + 60000,
        sent := s.sent ++ unprocessedOf s.cache batch }) ∧
    (outcomes s.attempts = BatchOutcome.fatal →
      classifierStep batches outcomes s = RunOut.exitFail { s with
        attempts := s.attempts + 1, flushes := s.flushes + 1,
        sent := s.sent ++ unprocessedOf s.cache batch } ∧
      exitCode (classifierStep batches outcomes s) = some 1) ∧
    ((∀ k, outcomes k = BatchOutcome.rateLimit) → ∀ n, ∃ s2,
      runLoop batches outcomes n (RunOut.running s) = RunOut.running s2 ∧
      s2.batchIdx = s.batchIdx ∧ s2.attempts = s.attempts + n ∧
      s2.cache = s.cache ∧ s2.waitedMs = s.waitedMs + 60000 * n) := by
  refine ⟨fun hrl => ?_, fun hft => ?_, fun hout n =>
    runLoop_rateLimit_unbounded batches outcomes hout n s batch hb hu⟩
  · simp only [classifierStep, hb, hu, Bool.false_eq_true, if_false, hrl]
  · have hstep : classifierStep batches outcomes s = RunOut.exitFail { s with
        attempts := s.attempts + 1, flushes := s.flushes + 1,
        sent := s.sent ++ unprocessedOf s.cache batch } := by
      simp only [classifierStep, hb, hu, Bool.false_eq_true, if_false, hft]
    exact ⟨hstep, by rw [hstep]; rfl⟩

/-- Claim C5 witness: one rate-limit step at a concrete state flushes,
waits 60 seconds and stays on batch 0. -/
theorem claim_C5_transient_retry_witness :
    classifierStep [[chunkC5]] (fun _ => BatchOutcome.rateLimit) (initState []) =
      RunOut.running
        { batchIdx := 0, attempts := 1, cache := [], processedChunks := 0,
          flushes := 1, waitedMs := 60000, lastProcessedId := none,
          sent := [chunkC5] } :=
  (claim_C5_transient_retry [[chunkC5]] (fun _ => BatchOutcome.rateLimit)
    (initState []) [chunkC5] rfl (by decide)).1 rfl

end Obbb
